import Mathlib

/-!
Verification of the continuous hyper-cube GFlowNet environment
(`gflownet/envs/cube.py`, class `ContinuousCube`).

States are lists of rational coordinates (floats are modelled as `ℚ`).
Action tensors may carry IEEE infinities (the EOS action is the all-infinity
tuple), so action entries are modelled by `FVal`, rationals extended with
plus/minus infinity.  Fallible code paths (Python `assert`, `IndexError`)
are modelled with `Except`.
-/

namespace ContCube

/-- Value of one entry of an action tensor: a finite float (as a rational) or
IEEE plus/minus infinity.  `FVal.inf` is the per-dimension EOS marker used by
`get_action_space` (`self.eos = tuple([np.inf] * self.n_dim)`). -/
inductive FVal where
  | fin (q : ℚ)
  | inf
  | ninf
  deriving DecidableEq, Repr

/-- Subtraction of a finite value from an extended value (IEEE semantics:
infinity minus a finite value stays infinite). -/
def FVal.subQ : FVal → ℚ → FVal
  | .fin a, q => .fin (a - q)
  | .inf, _ => .inf
  | .ninf, _ => .ninf

/-- Division of an extended value by a finite value (IEEE semantics for the
infinite cases; the finite case is rational division). -/
def FVal.divQ : FVal → ℚ → FVal
  | .fin a, q => .fin (a / q)
  | .inf, q => if q < 0 then .ninf else .inf
  | .ninf, q => if q < 0 then .inf else .ninf

/-- `torch.clamp` of an extended value to the interval `[lo, hi]`: infinities
are clamped to the corresponding bound. -/
def FVal.clampQ : FVal → ℚ → ℚ → ℚ
  | .fin a, lo, hi => max lo (min hi a)
  | .inf, _, hi => hi
  | .ninf, lo, _ => lo

/-- Elementwise combination of three lists, truncating at the shortest
(models elementwise tensor arithmetic on same-shape tensors). -/
def map3 {α β γ δ : Type} (f : α → β → γ → δ) : List α → List β → List γ → List δ
  | a :: as, b :: bs, c :: cs => f a b c :: map3 f as bs cs
  | _, _, _ => []

/-- Constructor parameters of the environment (`Cube.__init__`):
dimensionality `n_dim`, cube edge `max_val` and the minimum-increment
fraction (the constructor argument named `min_incr`). -/
structure CubeParams where
  n_dim : ℕ
  max_val : ℚ
  min_incr_frac : ℚ
  deriving DecidableEq, Repr

/-- The scaled minimum increment: `self.min_incr = min_incr * self.max_val`
(line 74 of `cube.py`). -/
def CubeParams.min_incr (p : CubeParams) : ℚ :=
  p.min_incr_frac * p.max_val

/-- The source state: `[0.0 for _ in range(self.n_dim)]`. -/
def CubeParams.source (p : CubeParams) : List ℚ :=
  List.replicate p.n_dim 0

/-- The EOS action: `tuple([np.inf] * self.n_dim)`. -/
def CubeParams.eos (p : CubeParams) : List FVal :=
  List.replicate p.n_dim FVal.inf

/-- `ContinuousCube.get_mask_invalid_actions_forward`: if `done`, all three
entries are `True`; otherwise entry 0 is whether any coordinate exceeds
`1 - min_incr`, entry 1 is whether the state is not the source and entry 2 is
whether the state is the source (the code builds `[False] * 3` and sets the
entries; the resulting list is assembled here directly). -/
def get_mask_invalid_actions_forward (p : CubeParams) (state : List ℚ)
    (done : Bool) : List Bool :=
  if done then [true, true, true]
  else
    [state.any fun s => decide (1 - p.min_incr < s),
     decide (state ≠ p.source),
     decide (state = p.source)]

/-- `ContinuousCube.get_mask_invalid_actions_backward`: if `done`, only EOS is
valid; otherwise if any coordinate is below `min_incr`, back-to-source is the
only valid action; otherwise only the continuous action is valid. -/
def get_mask_invalid_actions_backward (p : CubeParams) (state : List ℚ)
    (done : Bool) : List Bool :=
  if done then [true, true, false]
  else if state.any fun s => decide (s < p.min_incr) then [true, false, true]
  else [false, true, true]

/-- `ContinuousCube.relative_to_absolute_increments`: forward
`a = m + r * (max_val - x - m)`, backward `a = m + r * (x - m)`,
elementwise over a state. -/
def relative_to_absolute_increments (states increments_rel min_increments : List ℚ)
    (max_val : ℚ) (is_backward : Bool) : List ℚ :=
  if is_backward then
    map3 (fun x r m => m + r * (x - m)) states increments_rel min_increments
  else
    map3 (fun x r m => m + r * (max_val - x - m)) states increments_rel min_increments

/-- `ContinuousCube.absolute_to_relative_increments`: forward
`r = (a - m) / (max_val - x - m)`, backward `r = (a - m) / (x - m)`,
elementwise over a state. -/
def absolute_to_relative_increments (states increments_abs min_increments : List ℚ)
    (max_val : ℚ) (is_backward : Bool) : List ℚ :=
  if is_backward then
    map3 (fun x a m => (a - m) / (x - m)) states increments_abs min_increments
  else
    map3 (fun x a m => (a - m) / (max_val - x - m)) states increments_abs min_increments

/-- The same formula as `absolute_to_relative_increments` on action tensors
that may carry IEEE infinities (as passed to `get_logprobs`, where EOS rows
hold `inf` entries). -/
def absolute_to_relative_increments_ext (states : List ℚ) (increments_abs : List FVal)
    (min_increments : List ℚ) (max_val : ℚ) (is_backward : Bool) : List FVal :=
  if is_backward then
    map3 (fun x a m => (FVal.subQ a m).divQ (x - m)) states increments_abs min_increments
  else
    map3 (fun x a m => (FVal.subQ a m).divQ (max_val - x - m)) states increments_abs min_increments

/-- The stabilizing constant `epsilon = 1e-9` of `_get_jacobian_diag`. -/
def jacobian_epsilon : ℚ := 1 / 10 ^ 9

/-- `ContinuousCube._get_jacobian_diag`: the diagonal of the Jacobian of the
relative increments with respect to the target states, forward
`1 / ((max_val - x - m) + epsilon)`, backward `1 / ((x - m) + epsilon)`. -/
def get_jacobian_diag (states_from min_increments : List ℚ) (max_val : ℚ)
    (is_backward : Bool) : List ℚ :=
  if is_backward then
    List.zipWith (fun x m => 1 / ((x - m) + jacobian_epsilon)) states_from min_increments
  else
    List.zipWith (fun x m => 1 / ((max_val - x - m) + jacobian_epsilon)) states_from min_increments

/-- The increment computation of `_sample_actions_batch_forward` for one
state, given the relative increments drawn from the mixture distribution:
the minimum increments are `min_incr`, zeroed when the state is the source,
and the absolute increments follow by `relative_to_absolute_increments`. -/
def sample_forward_increments (p : CubeParams) (is_source : Bool)
    (states_from increments_rel : List ℚ) : List ℚ :=
  let min_increments :=
    List.replicate increments_rel.length (if is_source then 0 else p.min_incr)
  relative_to_absolute_increments states_from increments_rel min_increments p.max_val false

theorem map3_getD {α β γ δ : Type} (f : α → β → γ → δ) (as : List α) (bs : List β)
    (cs : List γ) (i : ℕ) (da : α) (db : β) (dc : γ) (d : δ)
    (ha : i < as.length) (hb : i < bs.length) (hc : i < cs.length) :
    (map3 f as bs cs).getD i d = f (as.getD i da) (bs.getD i db) (cs.getD i dc) := by
  induction as generalizing bs cs i with
  | nil => simp at ha
  | cons a as ih =>
    cases bs with
    | nil => simp at hb
    | cons b bs =>
      cases cs with
      | nil => simp at hc
      | cons c cs =>
        cases i with
        | zero => rfl
        | succ i =>
          simp only [map3, List.getD_cons_succ]
          exact ih bs cs i (by simpa using ha) (by simpa using hb) (by simpa using hc)

theorem getD_replicate {α : Type} (a d : α) (n i : ℕ) (h : i < n) :
    (List.replicate n a).getD i d = a := by
  induction n generalizing i with
  | zero => omega
  | succ n ih =>
    cases i with
    | zero => rfl
    | succ i =>
      simp only [List.replicate_succ, List.getD_cons_succ]
      exact ih i (by omega)

/-- C2: `absolute_to_relative_increments` inverts `relative_to_absolute_increments`
exactly, in both directions, for coordinates in `(0, max_val)`, relative
increments in `(0, 1)` and minimum increments that are nonnegative and below
the relevant range (`x - m` backward, `max_val - x - m` forward). -/
theorem relative_absolute_increments_inverse (states rs ms : List ℚ) (M : ℚ) (b : Bool)
    (hr : rs.length = states.length) (hm : ms.length = states.length)
    (h : ∀ i, i < states.length →
      0 < states.getD i 0 ∧ states.getD i 0 < M ∧
      0 < rs.getD i 0 ∧ rs.getD i 0 < 1 ∧
      0 ≤ ms.getD i 0 ∧
      ms.getD i 0 < (if b then states.getD i 0 else M - states.getD i 0)) :
    absolute_to_relative_increments states
      (relative_to_absolute_increments states rs ms M b) ms M b = rs := by
  induction states generalizing rs ms with
  | nil =>
    have hrs : rs = [] := List.length_eq_zero.mp (by simpa using hr)
    subst hrs
    cases b <;>
      simp [relative_to_absolute_increments, absolute_to_relative_increments, map3]
  | cons x xs ih =>
    cases rs with
    | nil => simp at hr
    | cons r rs =>
      cases ms with
      | nil => simp at hm
      | cons m ms =>
        have h0 := h 0 (by simp)
        simp only [List.getD_cons_zero] at h0
        obtain ⟨hx0, hxM, hr0, hr1, hm0, hmr⟩ := h0
        have htail : ∀ i, i < xs.length →
            0 < xs.getD i 0 ∧ xs.getD i 0 < M ∧
            0 < rs.getD i 0 ∧ rs.getD i 0 < 1 ∧
            0 ≤ ms.getD i 0 ∧
            ms.getD i 0 < (if b then xs.getD i 0 else M - xs.getD i 0) := by
          intro i hi
          have := h (i + 1) (by simpa using Nat.succ_lt_succ hi)
          simpa [List.getD_cons_succ] using this
        have ihtail := ih rs ms (by simpa using hr) (by simpa using hm) htail
        cases b with
        | false =>
          have hD : M - x - m ≠ 0 := by
            simp only [if_neg (by simp : ¬(false = true))] at hmr
            exact (sub_pos.mpr hmr).ne'
          simp only [relative_to_absolute_increments,
            absolute_to_relative_increments, Bool.false_eq_true, if_false, map3] at ihtail ⊢
          refine List.cons_eq_cons.mpr ⟨?_, ihtail⟩
          rw [add_sub_cancel_left, mul_div_cancel_right₀ _ hD]
        | true =>
          have hD : x - m ≠ 0 := by
            simp only [if_pos rfl] at hmr
            exact (sub_pos.mpr hmr).ne'
          simp only [relative_to_absolute_increments,
            absolute_to_relative_increments, if_pos rfl, map3] at ihtail ⊢
          refine List.cons_eq_cons.mpr ⟨?_, ihtail⟩
          rw [add_sub_cancel_left, mul_div_cancel_right₀ _ hD]

theorem relative_absolute_increments_inverse_witness :
    absolute_to_relative_increments [(1:ℚ)/2]
      (relative_to_absolute_increments [(1:ℚ)/2] [(1:ℚ)/3] [(1:ℚ)/10] 1 false)
      [(1:ℚ)/10] 1 false = [(1:ℚ)/3] :=
  relative_absolute_increments_inverse _ _ _ _ _ rfl rfl (by
    intro i hi
    simp only [List.length_singleton, Nat.lt_one_iff] at hi
    subst hi
    norm_num)

/-- C3 (amended): entry 0 of the forward mask equals `done` or whether some
coordinate exceeds `1 - min_incr` — the code compares against the literal
`1`, not against `max_val` (the two coincide only when `max_val = 1`). -/
theorem forward_mask_entry0_threshold (p : CubeParams) (state : List ℚ) (done : Bool) :
    (get_mask_invalid_actions_forward p state done).getD 0 false
      = (done || state.any fun s => decide (1 - p.min_incr < s)) := by
  cases done <;> simp [get_mask_invalid_actions_forward]

/-- C3 counterexample: with `max_val = 2` and scaled `min_incr = 0.2`, the
non-done state `[1.5]` gets mask entry 0 `True` although no coordinate
exceeds `max_val - min_incr = 1.8`, refuting the claimed threshold. -/
theorem forward_mask_entry0_threshold_cex :
    (get_mask_invalid_actions_forward ⟨1, 2, 1/10⟩ [3/2] false).getD 0 false = true ∧
    ([(3:ℚ)/2].any fun s =>
      decide ((⟨1, 2, 1/10⟩ : CubeParams).max_val
        - (⟨1, 2, 1/10⟩ : CubeParams).min_incr < s)) = false := by
  refine ⟨?_, ?_⟩ <;> norm_num [get_mask_invalid_actions_forward, CubeParams.min_incr]

/-- C5: the forward mask is the all-`True` 3-vector exactly when `done` is
`True`; a non-done state always leaves at least one entry `False`. -/
theorem forward_mask_all_true_iff_done (p : CubeParams) (state : List ℚ) (done : Bool) :
    get_mask_invalid_actions_forward p state done = [true, true, true] ↔ done = true := by
  cases done with
  | true => simp [get_mask_invalid_actions_forward]
  | false =>
    simp only [get_mask_invalid_actions_forward, Bool.false_eq_true, if_false]
    by_cases hsrc : state = p.source <;> simp [hsrc]

/-- C10: the backward mask always contains exactly one `False` entry: entry 2
(undo-EOS) when done; otherwise entry 1 (back-to-source forced) when some
coordinate is below `min_incr`; otherwise entry 0 (continuous backward). -/
theorem backward_mask_unique_valid (p : CubeParams) (state : List ℚ) (done : Bool) :
    (get_mask_invalid_actions_backward p state done).count false = 1 ∧
    ((get_mask_invalid_actions_backward p state done).getD 2 true = false ↔ done = true) ∧
    (done = false →
      (((get_mask_invalid_actions_backward p state done).getD 1 true = false) ↔
        (state.any fun s => decide (s < p.min_incr)) = true)) ∧
    (done = false →
      (((get_mask_invalid_actions_backward p state done).getD 0 true = false) ↔
        (state.any fun s => decide (s < p.min_incr)) = false)) := by
  cases done with
  | true => simp [get_mask_invalid_actions_backward]
  | false =>
    by_cases hb : (state.any fun s => decide (s < p.min_incr)) = true
    · simp [get_mask_invalid_actions_backward, hb]
    · simp [get_mask_invalid_actions_backward, hb,
        Bool.not_eq_true _ ▸ hb]

theorem backward_mask_unique_valid_witness :
    (get_mask_invalid_actions_backward ⟨2, 1, 1/10⟩ [1/2, 3/4] false).getD 0 true = false :=
  ((backward_mask_unique_valid ⟨2, 1, 1/10⟩ [1/2, 3/4] false).2.2.2 rfl).mpr
    (by norm_num [CubeParams.min_incr])

/-- C6: the absolute increment realized by forward sampling lies, per
dimension, in `[min_incr, max_val - x]` for non-source states and in
`[0, max_val - x]` for the source state (minimum increment zero), whenever
the drawn relative increment lies in `[0, 1]` and the coordinate leaves room
for the minimum increment. -/
theorem sample_forward_increments_bounds (p : CubeParams) (is_source : Bool)
    (states_from rs : List ℚ) (i : ℕ)
    (hi : i < rs.length) (hlen : states_from.length = rs.length)
    (hminc : 0 ≤ p.min_incr)
    (hr0 : 0 ≤ rs.getD i 0) (hr1 : rs.getD i 0 ≤ 1)
    (hx : states_from.getD i 0 + (if is_source then 0 else p.min_incr) ≤ p.max_val) :
    (if is_source then (0:ℚ) else p.min_incr)
        ≤ (sample_forward_increments p is_source states_from rs).getD i 0 ∧
      (sample_forward_increments p is_source states_from rs).getD i 0
        ≤ p.max_val - states_from.getD i 0 := by
  set m : ℚ := if is_source then (0:ℚ) else p.min_incr with hmdef
  have hm0 : 0 ≤ m := by
    cases is_source <;> simp [hmdef, hminc]
  have hD : 0 ≤ p.max_val - states_from.getD i 0 - m := by linarith
  have hgd : (sample_forward_increments p is_source states_from rs).getD i 0
      = m + rs.getD i 0 * (p.max_val - states_from.getD i 0 - m) := by
    simp only [sample_forward_increments, relative_to_absolute_increments,
      Bool.false_eq_true, if_false]
    rw [map3_getD _ _ _ _ i 0 0 0 0 (hlen ▸ hi) hi (by simpa using hi)]
    rw [getD_replicate _ _ _ _ (by simpa using hi)]
  constructor
  · rw [hgd]
    have : 0 ≤ rs.getD i 0 * (p.max_val - states_from.getD i 0 - m) :=
      mul_nonneg hr0 hD
    linarith
  · rw [hgd]
    have : rs.getD i 0 * (p.max_val - states_from.getD i 0 - m)
        ≤ p.max_val - states_from.getD i 0 - m :=
      mul_le_of_le_one_left hD hr1
    linarith

theorem sample_forward_increments_bounds_witness :
    (if false then (0:ℚ) else CubeParams.min_incr ⟨1, 1, 1/10⟩)
        ≤ (sample_forward_increments ⟨1, 1, 1/10⟩ false [3/10] [1/2]).getD 0 0 ∧
      (sample_forward_increments ⟨1, 1, 1/10⟩ false [3/10] [1/2]).getD 0 0
        ≤ (⟨1, 1, 1/10⟩ : CubeParams).max_val - [(3:ℚ)/10].getD 0 0 :=
  sample_forward_increments_bounds ⟨1, 1, 1/10⟩ false [3/10] [1/2] 0
    (by norm_num) rfl (by norm_num [CubeParams.min_incr]) (by norm_num) (by norm_num)
    (by norm_num [CubeParams.min_incr])

/-- A full environment snapshot: the `state`, the `done` flag and the
`n_actions` counter owned by one environment instance. -/
structure CubeState where
  state : List ℚ
  done : Bool
  n_actions : ℕ
  deriving DecidableEq, Repr

/-- The in-place increment loop of `ContinuousCube._step`:
`state[dim] += incr` forward, `state[dim] -= incr` backward (an action
shorter than the state leaves the trailing dimensions unchanged). -/
def apply_increments (backward : Bool) (state action : List ℚ) : List ℚ :=
  (List.zipWith (fun s a => if backward then s - a else s + a) state action)
    ++ state.drop action.length

/-- Modelled from the spec: `self.isclose` comes from the environment base
class (`gflownet/envs/base.py`, which is not among the sources); the spec
says the state is "snapped to source when within 1e-6 absolute tolerance",
i.e. every coordinate is compared with absolute tolerance `atol`. -/
def isclose (xs ys : List ℚ) (atol : ℚ) : Bool :=
  decide (xs.length = ys.length) &&
    (List.zipWith (fun x y => decide (|x - y| ≤ atol)) xs ys).all id

/-- `ContinuousCube._step`: apply the increments, snap to the source when
within `1e-6` of it, then assert that every coordinate lies within
`[0 - epsilon, max_val + epsilon]` with `epsilon = 1e-9` (a failed assertion
is an error).  An action longer than the state raises an `IndexError` in the
Python loop. -/
def step_core (p : CubeParams) (state action : List ℚ) (backward : Bool) :
    Except String (List ℚ) :=
  let epsilon : ℚ := 1 / 10 ^ 9
  if state.length < action.length then Except.error "index out of range" else
  let s1 := apply_increments backward state action
  let s2 := if isclose s1 p.source (1 / 10 ^ 6) then p.source else s1
  if s2.all fun s => decide (s ≤ p.max_val + epsilon) then
    if s2.all fun s => decide (0 - epsilon ≤ s) then Except.ok s2
    else Except.error "state out of cube bounds"
  else Except.error "state out of cube bounds"

/-- Finite projection of an action tensor: `some` of the rational entries if
every entry is finite, `none` otherwise.  A non-EOS action with an infinite
entry drives a coordinate to infinity in `_step`, which fails the cube-bounds
assertion. -/
def to_finite : List FVal → Option (List ℚ)
  | [] => some []
  | FVal.fin q :: rest => (to_finite rest).map (q :: ·)
  | _ => none

/-- `ContinuousCube.step`: with `done` the call is rejected with
`valid = False`; the EOS action asserts the state is not the source and sets
`done`; any other action is applied by `_step`. -/
def step (p : CubeParams) (env : CubeState) (action : List FVal) :
    Except String (CubeState × List FVal × Bool) :=
  if env.done then Except.ok (env, action, false)
  else if action = p.eos then
    if env.state = p.source then Except.error "assert failed: EOS from source"
    else Except.ok ({ env with done := true, n_actions := env.n_actions + 1 }, p.eos, true)
  else
    match to_finite action with
    | some incs =>
      match step_core p env.state incs false with
      | Except.ok s2 =>
        Except.ok ({ env with state := s2, n_actions := env.n_actions + 1 }, action, true)
      | Except.error e => Except.error e
    | none => Except.error "state out of cube bounds"

/-- `ContinuousCube.step_backwards`: from a done state the action must be EOS
(assert) and undoes it, leaving the state unchanged; otherwise the action
must not be EOS (assert) and the decrements are applied by `_step`. -/
def step_backwards (p : CubeParams) (env : CubeState) (action : List FVal) :
    Except String (CubeState × List FVal × Bool) :=
  if env.done then
    if action = p.eos then
      Except.ok ({ env with done := false, n_actions := env.n_actions + 1 }, action, true)
    else Except.error "assert failed: backward action from done must be EOS"
  else if action = p.eos then
    Except.error "assert failed: EOS is not a valid backward action"
  else
    match to_finite action with
    | some incs =>
      match step_core p env.state incs true with
      | Except.ok s2 =>
        Except.ok ({ env with state := s2, n_actions := env.n_actions + 1 }, action, true)
      | Except.error e => Except.error e
    | none => Except.error "state out of cube bounds"

/-- C7 (amended): `step` on a done environment returns the unchanged state
with `valid = False` and no exception, but `step_backwards` called with the
EOS action while not done fails the assertion `action != self.eos` instead
of returning a `valid = False` result. -/
theorem step_validity_signals (p : CubeParams) (env env' : CubeState) (action : List FVal)
    (h : env.done = true) (h' : env'.done = false) :
    step p env action = Except.ok (env, action, false) ∧
    step_backwards p env' p.eos
      = Except.error "assert failed: EOS is not a valid backward action" := by
  constructor
  · simp [step, h]
  · simp [step_backwards, h']

/-- C7 counterexample: backward-stepping the non-done state `[0.3, 0.5]` with
the EOS action hits the assertion `action != self.eos` (an exception, not an
`ok` result with `valid = False` as claimed). -/
theorem step_validity_signals_cex :
    step_backwards ⟨2, 1, 1/10⟩ ⟨[3/10, 1/2], false, 2⟩ (CubeParams.eos ⟨2, 1, 1/10⟩)
      = Except.error "assert failed: EOS is not a valid backward action" := by
  simp [step_backwards]

theorem step_validity_signals_witness :
    step ⟨2, 1, 1/10⟩ ⟨[3/10, 1/2], true, 2⟩ [FVal.fin 1]
        = Except.ok (⟨[3/10, 1/2], true, 2⟩, [FVal.fin 1], false) ∧
      step_backwards ⟨2, 1, 1/10⟩ ⟨[3/10, 1/2], false, 2⟩ (CubeParams.eos ⟨2, 1, 1/10⟩)
        = Except.error "assert failed: EOS is not a valid backward action" :=
  step_validity_signals ⟨2, 1, 1/10⟩ ⟨[3/10, 1/2], true, 2⟩ ⟨[3/10, 1/2], false, 2⟩
    [FVal.fin 1] rfl rfl

/-- C8: the documented 2-D scenario with `max_val = 1`, `min_incr = 0.1`:
from the source, action `(0.3, 0.5)` yields `[0.3, 0.5]`, not done, valid;
EOS sets `done` leaving the state unchanged; backward EOS clears `done`
leaving the state; backward `(0.3, 0.5)` returns exactly to `[0.0, 0.0]`
(snapped to source within the `1e-6` tolerance). -/
theorem scenario_two_dim_trajectory :
    step ⟨2, 1, 1/10⟩ ⟨[0, 0], false, 0⟩ [FVal.fin (3/10), FVal.fin (1/2)]
        = Except.ok (⟨[3/10, 1/2], false, 1⟩, [FVal.fin (3/10), FVal.fin (1/2)], true) ∧
      step ⟨2, 1, 1/10⟩ ⟨[3/10, 1/2], false, 1⟩ (CubeParams.eos ⟨2, 1, 1/10⟩)
        = Except.ok (⟨[3/10, 1/2], true, 2⟩, CubeParams.eos ⟨2, 1, 1/10⟩, true) ∧
      step_backwards ⟨2, 1, 1/10⟩ ⟨[3/10, 1/2], true, 2⟩ (CubeParams.eos ⟨2, 1, 1/10⟩)
        = Except.ok (⟨[3/10, 1/2], false, 3⟩, CubeParams.eos ⟨2, 1, 1/10⟩, true) ∧
      step_backwards ⟨2, 1, 1/10⟩ ⟨[3/10, 1/2], false, 3⟩ [FVal.fin (3/10), FVal.fin (1/2)]
        = Except.ok (⟨[0, 0], false, 4⟩, [FVal.fin (3/10), FVal.fin (1/2)], true) := by
  refine ⟨?_, ?_, ?_, ?_⟩
  · norm_num [step, step_core, apply_increments, isclose, to_finite,
      CubeParams.eos, CubeParams.source, List.replicate, abs_le]
    exact fun h => nomatch h
  · norm_num [step, CubeParams.eos, CubeParams.source, List.replicate]
  · norm_num [step_backwards, CubeParams.eos, List.replicate]
  · norm_num [step_backwards, step_core, apply_increments, isclose, to_finite,
      CubeParams.eos, CubeParams.source, List.replicate, abs_le]
    exact fun h => nomatch h

/-- Dynamically-typed Python value held in a state list: a float or a string
(`readable2state` produces strings, states hold floats). -/
inductive PyVal where
  | pfloat (q : ℚ)
  | pstr (s : String)
  deriving DecidableEq, Repr

/-- Digits of the fractional part of a nonnegative rational, as produced by
Python float printing for decimally representable values (fuel-bounded). -/
def frac_digits : ℕ → ℚ → String
  | 0, _ => ""
  | fuel + 1, f =>
    if f = 0 then ""
    else (⌊f * 10⌋).toNat.repr ++ frac_digits fuel (f * 10 - ⌊f * 10⌋)

/-- Modelled from Python's `str` of a float (the shortest round-tripping
decimal, always with a decimal point): sign, integer part, point, fractional
digits (`"0"` when the value is integral).  The Python float formatter is
library code; it is modelled here for decimally representable values. -/
def pyFloatStr (q : ℚ) : String :=
  (if q < 0 then "-" else "") ++ (⌊|q|⌋).toNat.repr ++ "." ++
    (if |q| - ⌊|q|⌋ = 0 then "0" else frac_digits 17 (|q| - ⌊|q|⌋))

/-- Python `str.replace` for a single-character pattern. -/
def replace_char (s : String) (c : Char) (r : String) : String :=
  String.join (s.toList.map fun ch => if ch = c then r else String.mk [ch])

/-- Python `str.strip(chars)`: remove the leading and trailing characters
that belong to `cs`. -/
def strip_chars (cs : List Char) (s : String) : String :=
  String.mk (((s.toList.dropWhile (cs.contains ·)).reverse.dropWhile (cs.contains ·)).reverse)

/-- Python `str.split(sep)` for a single-character separator: keeps empty
pieces, exactly like Python's split with an explicit separator. -/
def split_char (c : Char) : List Char → List Char → List String
  | [], acc => [String.mk acc.reverse]
  | ch :: rest, acc =>
    if ch = c then String.mk acc.reverse :: split_char c rest []
    else split_char c rest (ch :: acc)

/-- `Cube.state2readable`: `str(state)` (Python list formatting is
`"[" + ", ".join(str(el)) + "]"`) with `(` and `)` replaced by brackets and
commas removed. -/
def state2readable (state : List ℚ) : String :=
  replace_char (replace_char (replace_char
    ("[" ++ String.intercalate ", " (state.map pyFloatStr) ++ "]")
    '(' "[") ')' "]") ',' ""

/-- `Cube.readable2state`: strip the outer brackets and split on spaces; the
code returns the split substrings themselves
(`[el for el in readable.strip("[]").split(" ")]`), i.e. a list of strings,
with no conversion back to floats. -/
def readable2state (readable : String) : List PyVal :=
  (split_char ' ' (strip_chars ['[', ']'] readable).toList []).map PyVal.pstr

/-- C9 (code bug): the round trip `readable2state ∘ state2readable` applied
to the state `[0.0, 0.0]` yields the list of strings `["0.0", "0.0"]`, not a
state equal to the original — `readable2state` never converts the substrings
back to numbers. -/
theorem readable_roundtrip_not_inverse :
    readable2state (state2readable [0, 0]) = [PyVal.pstr "0.0", PyVal.pstr "0.0"] ∧
    readable2state (state2readable [0, 0]) ≠ [PyVal.pfloat 0, PyVal.pfloat 0] := by
  have h2 : (⌊|(0:ℚ)|⌋).toNat = 0 := by norm_num
  have h0 : pyFloatStr 0 = "0.0" := by
    rw [pyFloatStr, if_neg (by norm_num), if_pos (by norm_num), h2]
    rfl
  have h1 : state2readable [0, 0] = "[0.0 0.0]" := by
    rw [state2readable, List.map_cons, List.map_cons, List.map_nil, h0]
    rfl
  rw [h1]
  refine ⟨by rfl, by rw [show readable2state "[0.0 0.0]"
    = [PyVal.pstr "0.0", PyVal.pstr "0.0"] from rfl]; simp⟩

/-- The clamp bounds `1e-6` and `1 - 1e-6` applied to relative increments
before evaluating the Beta log-density. -/
def clamp_lo : ℚ := 1 / 1000000

/-- Upper clamp bound, see `clamp_lo`. -/
def clamp_hi : ℚ := 1 - 1 / 1000000

/-- `torch.distributions.Bernoulli(logits=L).log_prob(v)` in its logits
formulation `v * L - log(1 + exp L)` (torch is external library code; this
is its documented closed form). -/
noncomputable def bernoulli_log_prob (logit value : ℝ) : ℝ :=
  value * logit - Real.log (1 + Real.exp logit)

/-- `ContinuousCube._get_logprobs_forward` for one state of the batch (the
vectorized code acts row-wise; all tensor operations are elementwise or
row-reductions).  The mixture-of-Beta log-density
`distr_increments.log_prob` — torch library code built from the continuous
block of the policy output — is abstracted as the per-dimension function
`betaLP`; `eos_logit` is the last entry of the policy output.  The assertion
that no source state is EOS-forced is modelled as an error. -/
noncomputable def get_logprobs_forward (p : CubeParams) (betaLP : ℕ → ℝ → ℝ)
    (eos_logit : ℝ) (action : List FVal) (mask : List Bool) (state_from : List ℚ) :
    Except String ℝ :=
  let is_source := !(mask.getD 1 false)
  let is_eos_forced := mask.getD 0 false
  if is_source && is_eos_forced then
    Except.error "assert failed: source state with EOS forced"
  else
    let do_eos := !is_source && !is_eos_forced
    let is_eos_sampled := do_eos && (action.all fun a => decide (a = FVal.inf))
    let is_eos := is_eos_forced || is_eos_sampled
    let logprobs_eos : ℝ :=
      if do_eos then bernoulli_log_prob eos_logit (if is_eos_sampled then 1 else 0) else 0
    let do_increments := !is_eos
    let min_increments := List.replicate p.n_dim (if is_source then (0:ℚ) else p.min_incr)
    let increments_rel :=
      absolute_to_relative_increments_ext state_from action min_increments p.max_val false
    let logprobs_increments_rel : List ℝ :=
      if do_increments then
        (List.range p.n_dim).map fun d =>
          betaLP d (((increments_rel.getD d (FVal.fin 0)).clampQ clamp_lo clamp_hi : ℚ) : ℝ)
      else List.replicate p.n_dim 0
    let jacobian_diag : List ℚ :=
      if do_increments then get_jacobian_diag state_from min_increments p.max_val false
      else List.replicate p.n_dim 1
    let log_det_jacobian := (jacobian_diag.map fun j : ℚ => Real.log (j : ℝ)).sum
    Except.ok (logprobs_eos + logprobs_increments_rel.sum + log_det_jacobian)

/-- `ContinuousCube._get_logprobs_backward` for one state of the batch;
`source_logit` is the next-to-last entry of the policy output, `betaLP` as in
`get_logprobs_forward`.  A back-to-source action is detected by equality with
the originating state; the log-probability of the (forced) EOS rows is set
to `0` at the end. -/
noncomputable def get_logprobs_backward (p : CubeParams) (betaLP : ℕ → ℝ → ℝ)
    (source_logit : ℝ) (action : List FVal) (mask : List Bool) (state_from : List ℚ) : ℝ :=
  let is_eos := !(mask.getD 2 false)
  let is_bts_forced := !(mask.getD 1 false)
  let do_bts := !is_bts_forced && !is_eos
  let is_bts_sampled := do_bts && decide (action = state_from.map FVal.fin)
  let is_bts := is_bts_forced || is_bts_sampled
  let logprobs_bts : ℝ :=
    if do_bts then bernoulli_log_prob source_logit (if is_bts_sampled then 1 else 0) else 0
  let do_increments := !is_bts && !is_eos
  let min_increments := List.replicate p.n_dim p.min_incr
  let increments_rel :=
    absolute_to_relative_increments_ext state_from action min_increments p.max_val true
  let logprobs_increments_rel : List ℝ :=
    if do_increments then
      (List.range p.n_dim).map fun d =>
        betaLP d (((increments_rel.getD d (FVal.fin 0)).clampQ clamp_lo clamp_hi : ℚ) : ℝ)
    else List.replicate p.n_dim 0
  let jacobian_diag : List ℚ :=
    if do_increments then get_jacobian_diag state_from min_increments p.max_val true
    else List.replicate p.n_dim 1
  let log_det_jacobian := (jacobian_diag.map fun j : ℚ => Real.log (j : ℝ)).sum
  let logprobs := logprobs_bts + logprobs_increments_rel.sum + log_det_jacobian
  if is_eos then 0 else logprobs

/-- `ContinuousCube.get_logprobs`: dispatch on the direction. -/
noncomputable def get_logprobs (p : CubeParams) (betaLP : ℕ → ℝ → ℝ)
    (source_logit eos_logit : ℝ) (is_backward : Bool) (action : List FVal)
    (mask : List Bool) (state_from : List ℚ) : Except String ℝ :=
  if is_backward then
    Except.ok (get_logprobs_backward p betaLP source_logit action mask state_from)
  else get_logprobs_forward p betaLP eos_logit action mask state_from

/-- The spec's formula for the log-probability of a continuous action:
`log p(r) + Σ log|Jacobian_diagonal|` — the (clamped) mixture-of-Beta
log-density of the relative increments plus the summed log of the Jacobian
diagonal (forward `1/(max_val - x - m)`, backward `1/(x - m)`, each
stabilized by epsilon), with minimum increment `m`. -/
noncomputable def spec_continuous_logprob (p : CubeParams) (betaLP : ℕ → ℝ → ℝ)
    (action : List FVal) (state_from : List ℚ) (m : ℚ) (is_backward : Bool) : ℝ :=
  let min_increments := List.replicate p.n_dim m
  let increments_rel :=
    absolute_to_relative_increments_ext state_from action min_increments p.max_val is_backward
  ((List.range p.n_dim).map fun d =>
      betaLP d (((increments_rel.getD d (FVal.fin 0)).clampQ clamp_lo clamp_hi : ℚ) : ℝ)).sum
    + ((get_jacobian_diag state_from min_increments p.max_val is_backward).map
        fun j : ℚ => Real.log (j : ℝ)).sum

theorem sum_replicate_zero (n : ℕ) : (List.replicate n (0:ℝ)).sum = 0 := by
  simp [List.sum_replicate]

theorem sum_log_replicate_one (n : ℕ) :
    ((List.replicate n (1:ℚ)).map fun j : ℚ => Real.log (j : ℝ)).sum = 0 := by
  rw [List.map_replicate]
  norm_num [List.sum_replicate]

/-- C4: whenever the mask leaves exactly one valid action — forward forced
EOS (continuous actions invalid, non-source state), backward forced
back-to-source (some coordinate below `min_incr`), or backward undo-EOS of a
done state — `get_logprobs` assigns log-probability exactly `0.0` to the
realized action, whatever that action is. -/
theorem forced_action_logprob_zero (p : CubeParams) (betaLP : ℕ → ℝ → ℝ)
    (source_logit eos_logit : ℝ) (is_backward : Bool) (action : List FVal)
    (mask : List Bool) (state_from : List ℚ)
    (h : (is_backward = false ∧ mask.getD 0 false = true ∧ mask.getD 1 false = true)
       ∨ (is_backward = true ∧ mask.getD 1 false = false)
       ∨ (is_backward = true ∧ mask.getD 2 false = false)) :
    get_logprobs p betaLP source_logit eos_logit is_backward action mask state_from
      = Except.ok 0 := by
  rcases h with ⟨hb, h0, h1⟩ | ⟨hb, h1⟩ | ⟨hb, h2⟩
  · subst hb
    have h0' : mask[0]?.getD false = true := by
      simpa [List.getD_eq_getElem?_getD] using h0
    have h1' : mask[1]?.getD false = true := by
      simpa [List.getD_eq_getElem?_getD] using h1
    simp [get_logprobs, get_logprobs_forward, h0', h1',
      sum_replicate_zero, sum_log_replicate_one]
  · subst hb
    have h1' : mask[1]?.getD false = false := by
      simpa [List.getD_eq_getElem?_getD] using h1
    simp [get_logprobs, get_logprobs_backward, h1',
      sum_replicate_zero, sum_log_replicate_one]
  · subst hb
    have h2' : mask[2]?.getD false = false := by
      simpa [List.getD_eq_getElem?_getD] using h2
    simp [get_logprobs, get_logprobs_backward, h2',
      sum_replicate_zero, sum_log_replicate_one]

theorem forced_action_logprob_zero_witness :
    get_logprobs ⟨1, 1, 1/10⟩ (fun _ _ => 0) 0 0 false [FVal.fin 1] [true, true, false] [1/2]
      = Except.ok 0 :=
  forced_action_logprob_zero ⟨1, 1, 1/10⟩ (fun _ _ => 0) 0 0 false [FVal.fin 1]
    [true, true, false] [1/2] (Or.inl ⟨rfl, rfl, rfl⟩)

/-- C1 (amended): for a continuous (non-EOS, non-BTS) action,
`get_logprobs` returns the spec's `log p(r) + Σ log|Jacobian_diagonal|`
(with minimum increment `0` for forward source states and `min_incr`
otherwise) PLUS the Bernoulli log-probability of not sampling the EOS gate
(forward, for non-source states) or the back-to-source gate (backward) —
this gate term is absent from the claimed formula and is nonzero for every
logit. -/
theorem continuous_logprob_formula (p : CubeParams) (betaLP : ℕ → ℝ → ℝ)
    (source_logit eos_logit : ℝ) (is_backward : Bool) (action : List FVal)
    (mask : List Bool) (state_from : List ℚ)
    (hf0 : is_backward = false → mask.getD 0 false = false)
    (hfe : is_backward = false → (action.all fun a => decide (a = FVal.inf)) = false)
    (hb1 : is_backward = true → mask.getD 1 false = true)
    (hb2 : is_backward = true → mask.getD 2 false = true)
    (hbs : is_backward = true → decide (action = state_from.map FVal.fin) = false) :
    get_logprobs p betaLP source_logit eos_logit is_backward action mask state_from
      = Except.ok
          ((if is_backward then bernoulli_log_prob source_logit 0
            else if mask.getD 1 false then bernoulli_log_prob eos_logit 0 else 0)
            + spec_continuous_logprob p betaLP action state_from
                (if is_backward then p.min_incr
                 else if mask.getD 1 false then p.min_incr else 0) is_backward) := by
  cases is_backward with
  | false =>
    have h0 : mask[0]?.getD false = false := by
      simpa [List.getD_eq_getElem?_getD] using hf0 rfl
    have he := hfe rfl
    cases hm1 : mask[1]?.getD false with
    | false =>
      have hm1' : mask.getD 1 false = false := by
        simpa [List.getD_eq_getElem?_getD] using hm1
      simp only [get_logprobs, get_logprobs_forward, spec_continuous_logprob,
        Bool.false_eq_true, if_false, h0, hm1, hm1', he]
      simp [h0, sum_replicate_zero, add_assoc]
    | true =>
      have hm1' : mask.getD 1 false = true := by
        simpa [List.getD_eq_getElem?_getD] using hm1
      simp only [get_logprobs, get_logprobs_forward, spec_continuous_logprob,
        Bool.false_eq_true, if_false, h0, hm1, hm1', he]
      simp [h0, add_assoc]
  | true =>
    have h1 : mask[1]?.getD false = true := by
      simpa [List.getD_eq_getElem?_getD] using hb1 rfl
    have h2 : mask[2]?.getD false = true := by
      simpa [List.getD_eq_getElem?_getD] using hb2 rfl
    have hs := hbs rfl
    simp only [get_logprobs, get_logprobs_backward, spec_continuous_logprob,
      if_pos rfl, h1, h2, hs]
    simp [h1, h2, hs, add_assoc]

/-- C1 counterexample: for the forward continuous action `0.2` from the
non-source state `[0.3]` (`n_dim = 1`, `max_val = 1`, `min_incr = 0.1`, zero
logits, zero mixture log-density), the code's log-probability carries the
extra `-log 2` Bernoulli term for not sampling EOS, so it differs from the
claimed `log p(r) + Σ log|Jacobian_diagonal|`. -/
theorem continuous_logprob_formula_cex :
    get_logprobs ⟨1, 1, 1/10⟩ (fun _ _ => 0) 0 0 false [FVal.fin (1/5)]
        [false, true, false] [3/10]
      ≠ Except.ok (spec_continuous_logprob ⟨1, 1, 1/10⟩ (fun _ _ => 0) [FVal.fin (1/5)]
          [3/10] (CubeParams.min_incr ⟨1, 1, 1/10⟩) false) := by
  have hlog : Real.log 2 ≠ 0 := (Real.log_pos (by norm_num)).ne'
  simp only [get_logprobs, get_logprobs_forward, spec_continuous_logprob,
    Bool.false_eq_true, if_false]
  simp [bernoulli_log_prob, Real.exp_zero]
  intro hcontra
  rw [show (1:ℝ) + 1 = 2 by norm_num] at hcontra
  exact hlog (by linarith)

theorem continuous_logprob_formula_witness :
    get_logprobs ⟨1, 1, 1/10⟩ (fun _ _ => 0) 0 0 true [FVal.fin (1/5)]
        [false, true, true] [3/10]
      = Except.ok
          ((if (true : Bool) then bernoulli_log_prob 0 0
            else if ([false, true, true] : List Bool).getD 1 false then bernoulli_log_prob 0 0 else 0)
            + spec_continuous_logprob ⟨1, 1, 1/10⟩ (fun _ _ => 0) [FVal.fin (1/5)] [3/10]
                (if (true : Bool) then CubeParams.min_incr ⟨1, 1, 1/10⟩
                 else if ([false, true, true] : List Bool).getD 1 false then CubeParams.min_incr ⟨1, 1, 1/10⟩ else 0) true) :=
  continuous_logprob_formula ⟨1, 1, 1/10⟩ (fun _ _ => 0) 0 0 true [FVal.fin (1/5)]
    [false, true, true] [3/10]
    (fun h => nomatch h) (fun h => nomatch h) (fun _ => rfl) (fun _ => rfl)
    (fun _ => by norm_num)

end ContCube
